import Mathlib

/-!
Shallow embedding of `get_ENA_accession_from_pdf.py`: the title-inference
cascade, the accession matcher with dehyphenation and deduplication, and the
batch orchestrator with per-document failure isolation.  Text is modelled as
`List Char` (ASCII scope), font sizes as `Rat`, fallible external calls as
`Except`.
-/

namespace Scraper

/-- Python `\s` / `str.strip` whitespace, ASCII range. -/
def isWs (c : Char) : Bool :=
  c = ' ' || c = '\t' || c = '\n' || c = '\r' || c = '\x0b' || c = '\x0c'

/-- One pass of `re.sub(r"\s+", " ", t)`: each maximal whitespace run becomes
one space.  The flag records whether we are inside a whitespace run. -/
def collapseWsAux : Bool → List Char → List Char
  | _, [] => []
  | afterWs, c :: rest =>
    if isWs c then
      if afterWs then collapseWsAux true rest
      else ' ' :: collapseWsAux true rest
    else c :: collapseWsAux false rest

/-- Python `str.strip()`: drop whitespace from both ends. -/
def stripEnds (l : List Char) : List Char :=
  ((l.dropWhile isWs).reverse.dropWhile isWs).reverse

/-- Character class of `re.sub(r"[\s\-–—:]+$", "", t)`. -/
def isTrail (c : Char) : Bool :=
  isWs c || c = '-' || c = '–' || c = '—' || c = ':'

/-- Strip the trailing run of whitespace/dash/colon characters. -/
def dropTrailingJunk (l : List Char) : List Char :=
  (l.reverse.dropWhile isTrail).reverse

/-- The source's `clean_title`: collapse whitespace runs, strip ends, then
strip the trailing whitespace/dash/colon run. -/
def clean_title (t : List Char) : List Char :=
  dropTrailingJunk (stripEnds (collapseWsAux false t))

/-- Python `str.isupper()` (ASCII): at least one cased character and no
lower-case character. -/
def pyIsUpper (l : List Char) : Bool :=
  l.any (fun c => c.isAlpha) && l.all (fun c => !c.isLower)

/-- Python `\w` (ASCII): letters, digits, underscore. -/
def isWordChar (c : Char) : Bool :=
  c.isAlphanum || c = '_'

/-- One scan step of `re.sub(r"(\w)-\n(\w)", r"\1\2", text)`, with fuel
bounding the number of scan positions. -/
def dehyphenAux : Nat → List Char → List Char
  | 0, l => l
  | fuel + 1, l =>
    match l with
    | a :: '-' :: '\n' :: b :: rest2 =>
      if isWordChar a && isWordChar b then a :: b :: dehyphenAux fuel rest2
      else a :: dehyphenAux fuel ('-' :: '\n' :: b :: rest2)
    | a :: rest => a :: dehyphenAux fuel rest
    | [] => []

/-- Model of `re.sub(r"(\w)-\n(\w)", r"\1\2", text)`: a left-to-right non-overlapping
scan collapsing word-char, hyphen, newline, word-char to the two word chars. -/
def dehyphen (l : List Char) : List Char :=
  dehyphenAux l.length l

/-- Greedy `\d{4,}` after an already-matched head: take the maximal digit run
and require at least four digits; the group is the whole match. -/
def matchTail4 (head : List Char) (rest : List Char) : Option (List Char) :=
  let ds := rest.takeWhile Char.isDigit
  if 4 ≤ ds.length then some (head ++ ds) else none

/-- Matcher for `[A-Z]?\d{4,}` (case-insensitive) after a matched head, with regex
backtracking semantics: if the optional letter is taken the digits must follow
it, otherwise the digits must start immediately. -/
def matchOptLetterDigits (head : List Char) (rest : List Char) : Option (List Char) :=
  match rest with
  | c :: rest2 =>
    if c.isAlpha then matchTail4 (head ++ [c]) rest2
    else matchTail4 head rest
  | [] => matchTail4 head rest

/-- Matcher for `(PRJ[EDN][A-Z]?\d{4,})`, case-insensitive, anchored at the current
position. -/
def matchPRJ : List Char → Option (List Char)
  | p :: r :: j :: k :: rest =>
    if p.toLower = 'p' && r.toLower = 'r' && j.toLower = 'j' &&
       (k.toLower = 'e' || k.toLower = 'd' || k.toLower = 'n') then
      matchOptLetterDigits [p, r, j, k] rest
    else none
  | _ => none

/-- Matcher for `(GSE\d{4,})`, case-insensitive, anchored at the current position. -/
def matchGSE : List Char → Option (List Char)
  | g :: s :: e :: rest =>
    if g.toLower = 'g' && s.toLower = 's' && e.toLower = 'e' then
      matchTail4 [g, s, e] rest
    else none
  | _ => none

/-- Matcher for `(GSM\d{4,})`, case-insensitive, anchored at the current position. -/
def matchGSM : List Char → Option (List Char)
  | g :: s :: m :: rest =>
    if g.toLower = 'g' && s.toLower = 's' && m.toLower = 'm' then
      matchTail4 [g, s, m] rest
    else none
  | _ => none

/-- Matcher for `(SAM[END][A-Z]?\d{4,})`, case-insensitive, anchored at the current
position. -/
def matchSAM : List Char → Option (List Char)
  | s :: a :: m :: k :: rest =>
    if s.toLower = 's' && a.toLower = 'a' && m.toLower = 'm' &&
       (k.toLower = 'e' || k.toLower = 'n' || k.toLower = 'd') then
      matchOptLetterDigits [s, a, m, k] rest
    else none
  | _ => none

/-- Model of `rx.finditer`: scan left to right; on a match emit its group and resume
after the match, otherwise advance one character.  Fuel equals the text
length, which bounds the number of scan steps. -/
def finditerAux (m : List Char → Option (List Char)) : Nat → List Char → List (List Char)
  | 0, _ => []
  | _, [] => []
  | fuel + 1, c :: rest =>
    match m (c :: rest) with
    | some g =>
      if g.length = 0 then finditerAux m fuel rest
      else g :: finditerAux m fuel ((c :: rest).drop g.length)
    | none => finditerAux m fuel rest

/-- All matches of a compiled pattern in a text, in scan order. -/
def finditer (m : List Char → Option (List Char)) (l : List Char) : List (List Char) :=
  finditerAux m l.length l

/-- The pattern registry `COMPILED`, in registry order. -/
def COMPILED : List (String × (List Char → Option (List Char))) :=
  [("ENA Project", matchPRJ),
   ("GEO Series", matchGSE),
   ("GEO Sample", matchGSM),
   ("Biosample", matchSAM)]

/-- The `seen`-set insertion of `find_accessions`: append unless the
(label, identifier) pair was already recorded. -/
def insertIfNew (found : List (String × List Char)) (x : String × List Char) :
    List (String × List Char) :=
  if x ∈ found then found else found ++ [x]

/-- The source's `find_accessions`: for each rule in registry order, scan the raw text and
then the dehyphenated text, upper-case each captured group, and keep the
first occurrence of every (label, identifier) pair. -/
def find_accessions (text : List Char) : List (String × List Char) :=
  let text_dehyphen := dehyphen text
  COMPILED.foldl
    (fun found p =>
      ((finditer p.2 text) ++ (finditer p.2 text_dehyphen)).foldl
        (fun fd g => insertIfNew fd (p.1, g.map Char.toUpper)) found)
    []

/-- Specification-side ordering description: all candidate hits before
deduplication, in registry order, raw surface before dehyphenated surface. -/
def allRawHits (text : List Char) : List (String × List Char) :=
  COMPILED.flatMap
    (fun p => ((finditer p.2 text) ++ (finditer p.2 (dehyphen text))).map
      (fun g => (p.1, g.map Char.toUpper)))

/-- First-occurrence deduplication: keep each element's first occurrence, in
order. -/
def dedupFirst : List (String × List Char) → List (String × List Char)
  | [] => []
  | x :: xs => x :: dedupFirst (xs.filter (fun y => !decide (y = x)))
  termination_by l => l.length
  decreasing_by
    simp only [List.length_cons]
    exact Nat.lt_succ_of_le (List.length_filter_le _ _)

/-- A first-page text span, as delivered by the layout decomposition. -/
structure Span where
  text : List Char
  size : Rat
  deriving DecidableEq

/-- A first-page layout line. -/
structure TLine where
  spans : List Span
  deriving DecidableEq

/-- A first-page layout block. -/
structure Block where
  lines : List TLine
  deriving DecidableEq

/-- The block → line → span traversal order of the source loop. -/
def spansOf (blocks : List Block) : List Span :=
  (blocks.flatMap (fun b => b.lines)).flatMap (fun ln => ln.spans)

/-- The span filter of the largest-span tier: trimmed text non-empty, longer
than five characters, and not entirely upper-case. -/
def qualifies (txt : List Char) : Bool :=
  !txt.isEmpty && decide (5 < txt.length) && !pyIsUpper txt

/-- The best-span loop of `guess_title_from_first_page`: starting from
`(-1, "")`, replace the best when a qualifying span has strictly larger
size. -/
def bestLoop : Rat × List Char → List Span → Rat × List Char
  | best, [] => best
  | best, s :: rest =>
    let txt := stripEnds s.text
    if qualifies txt && decide (best.1 < s.size) then bestLoop (s.size, txt) rest
    else bestLoop best rest

/-- Specification-side selection: the first qualifying span pair of strictly
maximal size (ties keep the earlier one). -/
def firstMax : List (Rat × List Char) → Option (Rat × List Char)
  | [] => none
  | x :: xs =>
    match firstMax xs with
    | none => some x
    | some y => if x.1 < y.1 then some y else some x

/-- The qualifying (size, trimmed text) pairs of a span list, in traversal
order. -/
def qualifiedOf (spans : List Span) : List (Rat × List Char) :=
  (spans.map (fun s => (s.size, stripEnds s.text))).filter (fun p => qualifies p.2)

/-- One page: the layout blocks of `get_text("dict")` and the plain text of
`get_text()`. -/
structure Page where
  blocks : List Block
  rawText : List Char
  deriving DecidableEq

/-- A successfully opened document: its metadata title (empty list when the
metadata has none) and its pages. -/
structure PdfDoc where
  metaTitle : List Char
  pages : List Page
  deriving DecidableEq

/-- Python `str.splitlines` (ASCII terminators): split at `\n`, `\r\n`, `\r`;
a trailing segment is kept only if non-empty. -/
def splitlinesGo : List Char → List Char → List (List Char)
  | cur, [] => if cur.isEmpty then [] else [cur.reverse]
  | cur, '\r' :: '\n' :: rest2 => cur.reverse :: splitlinesGo [] rest2
  | cur, '\n' :: rest => cur.reverse :: splitlinesGo [] rest
  | cur, '\r' :: rest => cur.reverse :: splitlinesGo [] rest
  | cur, c :: rest => splitlinesGo (c :: cur) rest

/-- Python `str.splitlines` on the modelled character list. -/
def splitlines (l : List Char) : List (List Char) :=
  splitlinesGo [] l

/-- The first-line tier's raw pick: the first line whose stripped form is
non-empty and longer than five characters, before cleaning. -/
def first_line_raw : List (List Char) → Option (List Char)
  | [] => none
  | l :: rest =>
    let L := stripEnds l
    if !L.isEmpty && decide (5 < L.length) then some L else first_line_raw rest

/-- The metadata-tier condition: title present, non-blank after stripping, and
longer than three characters after stripping. -/
def metaCond (mt : List Char) : Bool :=
  !mt.isEmpty && !(stripEnds mt).isEmpty && decide (3 < (stripEnds mt).length)

/-- The source's `guess_title_from_first_page`: metadata tier, then largest qualifying
first-page span, then first substantive line, then the filename stem. -/
def guess_title_from_first_page (d : PdfDoc) (stem : List Char) : List Char :=
  if metaCond d.metaTitle then clean_title d.metaTitle
  else
    match d.pages with
    | [] => stem
    | p :: _ =>
      let best := bestLoop (-1, []) (spansOf p.blocks)
      if !best.2.isEmpty then clean_title best.2
      else
        match first_line_raw (splitlines p.rawText) with
        | some L => clean_title L
        | none => stem

/-- The raw (pre-cleaning) candidate selected by the cascade, if any tier
qualifies. -/
def selectedRaw (d : PdfDoc) : Option (List Char) :=
  if metaCond d.metaTitle then some d.metaTitle
  else
    match d.pages with
    | [] => none
    | p :: _ =>
      let best := bestLoop (-1, []) (spansOf p.blocks)
      if !best.2.isEmpty then some best.2
      else first_line_raw (splitlines p.rawText)

/-- The class name and message of a caught Python exception. -/
structure ExcInfo where
  className : List Char
  msg : List Char
  deriving DecidableEq

/-- One input document of a batch run: its file name and stem, the outcome of
opening it for title inference, the outcome of text extraction, and the
outcome of the optional relocation. -/
structure DocInput where
  name : List Char
  stem : List Char
  titleRes : Except ExcInfo PdfDoc
  textRes : Except ExcInfo (List Char)
  moveRes : Except ExcInfo Unit

/-- One CSV row. -/
structure Row where
  pdf_file : List Char
  paper_title : List Char
  accession_type : List Char
  accession : List Char
  deriving DecidableEq

/-- One JSONL record. -/
structure JsonRec where
  pdf_file : List Char
  paper_title : List Char
  accessions : List (String × List Char)
  error : Option (List Char)
  deriving DecidableEq

/-- The accumulator state of the batch loop. -/
structure BatchState where
  rows : List Row
  jsonl_records : List JsonRec
  total_matches : Nat
  deriving DecidableEq

/-- The CSV row appended for a failed document: `ERROR: <class>` title, empty
type and identifier. -/
def errRowOf (name : List Char) (e : ExcInfo) : Row :=
  ⟨name, ("ERROR: ").toList ++ e.className, [], []⟩

/-- The JSONL record appended for a failed document: `ERROR: <class>` title,
empty accessions, and the failure message in `error`. -/
def errRecOf (name : List Char) (e : ExcInfo) : JsonRec :=
  ⟨name, ("ERROR: ").toList ++ e.className, [], some e.msg⟩

/-- The CSV rows of a successful document: one row per hit, or a single row
with empty type and identifier when there are no hits. -/
def successRows (name title : List Char) (ms : List (String × List Char)) : List Row :=
  if ms.isEmpty then [⟨name, title, [], []⟩]
  else ms.map (fun m => ⟨name, title, m.1.toList, m.2⟩)

/-- The JSONL record of a successful document. -/
def successRec (name title : List Char) (ms : List (String × List Char)) : JsonRec :=
  ⟨name, title, ms, none⟩

/-- Append the error row and (when JSONL is enabled) the error record for a
caught exception, as the `except` block of the loop body does. -/
def appendErr (writeJsonl : Bool) (st : BatchState) (name : List Char) (e : ExcInfo) :
    BatchState :=
  { rows := st.rows ++ [errRowOf name e]
    jsonl_records := st.jsonl_records ++ (if writeJsonl then [errRecOf name e] else [])
    total_matches := st.total_matches }

/-- The loop body of `main` for one document: try title inference, text
extraction and matching; on success append the success rows/record and, if
relocation is enabled and fails, fall into the same `except` and append an
additional error row/record; on failure append the error row/record. -/
def processOne (writeJsonl moveDone : Bool) (st : BatchState) (doc : DocInput) :
    BatchState :=
  match doc.titleRes with
  | .error e => appendErr writeJsonl st doc.name e
  | .ok d =>
    match doc.textRes with
    | .error e => appendErr writeJsonl st doc.name e
    | .ok text =>
      let title := guess_title_from_first_page d doc.stem
      let ms := find_accessions text
      let st1 : BatchState :=
        { rows := st.rows ++ successRows doc.name title ms
          jsonl_records := st.jsonl_records ++
            (if writeJsonl then [successRec doc.name title ms] else [])
          total_matches := st.total_matches + ms.length }
      if moveDone then
        match doc.moveRes with
        | .ok _ => st1
        | .error e => appendErr writeJsonl st1 doc.name e
      else st1

/-- The whole batch loop of `main`, starting from empty accumulators. -/
def runBatch (writeJsonl moveDone : Bool) (docs : List DocInput) : BatchState :=
  docs.foldl (processOne writeJsonl moveDone) ⟨[], [], 0⟩

/-- The CSV rows contributed by one document, in isolation. -/
def docRowsOf (moveDone : Bool) (doc : DocInput) : List Row :=
  match doc.titleRes with
  | .error e => [errRowOf doc.name e]
  | .ok d =>
    match doc.textRes with
    | .error e => [errRowOf doc.name e]
    | .ok text =>
      let title := guess_title_from_first_page d doc.stem
      let ms := find_accessions text
      successRows doc.name title ms ++
        (if moveDone then
          match doc.moveRes with
          | .ok _ => []
          | .error e => [errRowOf doc.name e]
         else [])

/-- The JSONL records contributed by one document, in isolation. -/
def docRecsOf (writeJsonl moveDone : Bool) (doc : DocInput) : List JsonRec :=
  if writeJsonl then
    match doc.titleRes with
    | .error e => [errRecOf doc.name e]
    | .ok d =>
      match doc.textRes with
      | .error e => [errRecOf doc.name e]
      | .ok text =>
        let title := guess_title_from_first_page d doc.stem
        let ms := find_accessions text
        [successRec doc.name title ms] ++
          (if moveDone then
            match doc.moveRes with
            | .ok _ => []
            | .error e => [errRecOf doc.name e]
           else [])
  else []

/-- The hit-count contribution of one document. -/
def docTotalOf (doc : DocInput) : Nat :=
  match doc.titleRes with
  | .error _ => 0
  | .ok _ =>
    match doc.textRes with
    | .error _ => 0
    | .ok text => (find_accessions text).length

/-- Adjacent-character relation: no two consecutive whitespace characters. -/
def WsSep (a b : Char) : Prop :=
  isWs a = true → isWs b = false

/-- No hyphen of the text is immediately followed by a line break. -/
def noHyphenBreak : List Char → Bool
  | c :: d :: rest => !(c = '-' && d = '\n') && noHyphenBreak (d :: rest)
  | _ => true

/-- C4's example text: the same GEO series identifier three times, once in
lower case. -/
def gseText : List Char :=
  ("GSE1234 gse1234 GSE1234").toList

/-- C6's example text: an ENA project identifier split across a line wrap by
a hyphen. -/
def wrapText : List Char :=
  ("PRJEB12-\n345").toList

/-- C7's example spans: sizes 10, 24, 12; the size-24 span is entirely
upper-case. -/
def exSpans : List Span :=
  [⟨(" Journal of Examples ").toList, 10⟩,
   ⟨("GENOMIC DATA REPORT").toList, 24⟩,
   ⟨("A Study of Regulatory Elements").toList, 12⟩]

/-- A first-page block holding a single span. -/
def oneSpanBlock (s : Span) : Block :=
  ⟨[⟨[s]⟩]⟩

/-- C7's example document: no usable metadata, one page carrying the example
spans. -/
def exDoc : PdfDoc :=
  ⟨[], [⟨[oneSpanBlock ⟨(" Journal of Examples ").toList, 10⟩,
          oneSpanBlock ⟨("GENOMIC DATA REPORT").toList, 24⟩,
          oneSpanBlock ⟨("A Study of Regulatory Elements").toList, 12⟩], []⟩]⟩

/-- C10's example spans: the strictly largest span consists only of digits. -/
def digitSpans : List Span :=
  [⟨("Hello World").toList, 10⟩, ⟨("1234567").toList, 20⟩]

/-- C10's example document: no metadata, one page whose largest span is the
digits-only span. -/
def digitDoc : PdfDoc :=
  ⟨[], [⟨[oneSpanBlock ⟨("Hello World").toList, 10⟩,
          oneSpanBlock ⟨("1234567").toList, 20⟩], []⟩]⟩

/-- C2's counterexample document: a metadata title of five dashes passes the
metadata-tier check but cleans to the empty string. -/
def dashDoc : PdfDoc :=
  ⟨("-----").toList, []⟩

/-- C3's example batch, document 1: extraction succeeds and the text holds a
GEO series identifier. -/
def docA : DocInput :=
  ⟨("a.pdf").toList, ("a").toList,
   .ok ⟨("Paper One Title").toList, []⟩,
   .ok ("We deposited GSE1234 here.").toList,
   .ok ()⟩

/-- C3's example batch, document 2: opening the file raises an extraction
failure. -/
def docB : DocInput :=
  ⟨("b.pdf").toList, ("b").toList,
   .error ⟨("FileDataError").toList, ("cannot open broken.pdf").toList⟩,
   .ok [],
   .ok ()⟩

/-- C3's example batch, document 3: extraction succeeds and the text holds an
ENA project identifier. -/
def docC : DocInput :=
  ⟨("c.pdf").toList, ("c").toList,
   .ok ⟨("Paper Three Title").toList, []⟩,
   .ok ("Data at PRJEB12345.").toList,
   .ok ()⟩

/-- C1's failing input: a successfully processed document whose relocation to
the completed-items location raises. -/
def moveFailDoc : DocInput :=
  ⟨("m.pdf").toList, ("m").toList,
   .ok ⟨("Moved Paper Title").toList, []⟩,
   .ok ("No accessions here.").toList,
   .error ⟨("OSError").toList, ("disk full").toList⟩⟩

/-- The same document as `moveFailDoc` but with a successful relocation. -/
def moveOkDoc : DocInput :=
  ⟨("m.pdf").toList, ("m").toList,
   .ok ⟨("Moved Paper Title").toList, []⟩,
   .ok ("No accessions here.").toList,
   .ok ()⟩

/-- A whitespace character is a trailing-strip character. -/
theorem isTrail_of_isWs {c : Char} (h : isWs c = true) : isTrail c = true := by
  simp [isTrail, h]

/-- Rewriting `stripEnds` with the library combinators. -/
theorem stripEnds_eq (l : List Char) :
    stripEnds l = List.rdropWhile isWs (l.dropWhile isWs) := rfl

/-- Rewriting `dropTrailingJunk` with the library combinator. -/
theorem dropTrailingJunk_eq (l : List Char) :
    dropTrailingJunk l = List.rdropWhile isTrail l := rfl

/-- Every whitespace character in the output of whitespace collapsing is a
plain space. -/
theorem allWsSpace_collapseWsAux (b : Bool) (l : List Char) :
    ∀ c ∈ collapseWsAux b l, isWs c = true → c = ' ' := by
  induction l generalizing b with
  | nil => simp [collapseWsAux]
  | cons c rest ih =>
    intro d hd hws
    by_cases hc : isWs c = true
    · cases b with
      | true =>
        simp only [collapseWsAux, hc, if_pos, if_true] at hd
        exact ih true d hd hws
      | false =>
        simp only [collapseWsAux, hc, if_pos, if_true, Bool.false_eq_true, if_false,
          List.mem_cons] at hd
        rcases hd with rfl | hd
        · rfl
        · exact ih true d hd hws
    · simp only [collapseWsAux, hc, if_false, Bool.false_eq_true, List.mem_cons] at hd
      rcases hd with rfl | hd
      · exact absurd hws (by simp [hc])
      · exact ih false d hd hws

/-- After a whitespace run was just collapsed, the next output character is
not whitespace. -/
theorem collapseWsAux_true_head (l : List Char) :
    ∀ c, (collapseWsAux true l).head? = some c → isWs c = false := by
  induction l with
  | nil => intro c h; simp [collapseWsAux] at h
  | cons c rest ih =>
    intro d hd
    by_cases hc : isWs c = true
    · simp only [collapseWsAux, hc, if_pos, if_true] at hd
      exact ih d hd
    · simp only [collapseWsAux, hc, Bool.false_eq_true, if_false, List.head?_cons,
        Option.some.injEq] at hd
      subst hd
      simpa using hc

/-- The output of whitespace collapsing has no two adjacent whitespace
characters. -/
theorem chain'_collapseWsAux (b : Bool) (l : List Char) :
    List.Chain' WsSep (collapseWsAux b l) := by
  induction l generalizing b with
  | nil => simp [collapseWsAux]
  | cons c rest ih =>
    by_cases hc : isWs c = true
    · cases b with
      | true => simpa [collapseWsAux, hc] using ih true
      | false =>
        simp only [collapseWsAux, hc, if_pos, if_true, Bool.false_eq_true, if_false]
        rw [List.chain'_cons']
        exact ⟨fun y hy _ => collapseWsAux_true_head rest y hy, ih true⟩
    · simp only [collapseWsAux, hc, Bool.false_eq_true, if_false]
      rw [List.chain'_cons']
      exact ⟨fun y _ hws => absurd hws (by simp [hc]), ih false⟩

/-- When the head is not whitespace the collapsing flag is irrelevant. -/
theorem collapseWsAux_true_eq_false {l : List Char}
    (h : ∀ c, l.head? = some c → isWs c = false) :
    collapseWsAux true l = collapseWsAux false l := by
  cases l with
  | nil => rfl
  | cons c rest =>
    have hc := h c rfl
    simp [collapseWsAux, hc]

/-- Whitespace collapsing is the identity on a list whose whitespace is all
plain spaces with no two adjacent. -/
theorem collapseWsAux_eq_self {l : List Char}
    (hsp : ∀ c ∈ l, isWs c = true → c = ' ')
    (hch : List.Chain' WsSep l) :
    collapseWsAux false l = l := by
  induction l with
  | nil => rfl
  | cons c rest ih =>
    rw [List.chain'_cons'] at hch
    have ihr := ih (fun d hd => hsp d (List.mem_cons_of_mem c hd)) hch.2
    by_cases hc : isWs c = true
    · have hcsp := hsp c (List.mem_cons_self c rest) hc
      have hhead : ∀ d, rest.head? = some d → isWs d = false :=
        fun d hd => hch.1 d hd hc
      simp only [collapseWsAux, hc, if_pos, if_true, Bool.false_eq_true, if_false]
      rw [collapseWsAux_true_eq_false hhead, ihr, hcsp]
    · simp only [collapseWsAux, hc, Bool.false_eq_true, if_false]
      rw [ihr]

/-- C9, claim theorem: title cleaning is idempotent — collapsing whitespace,
trimming, and stripping trailing whitespace/dash/colon runs reaches a fixed
point after one application. -/
theorem claim_C9_clean_title_idempotent (t : List Char) :
    clean_title (clean_title t) = clean_title t := by
  have hrw : ∀ s : List Char,
      clean_title s =
        List.rdropWhile isTrail (List.rdropWhile isWs ((collapseWsAux false s).dropWhile isWs)) :=
    fun s => rfl
  set u : List Char := collapseWsAux false t with hu
  set u1 : List Char := u.dropWhile isWs with hu1
  set v : List Char := List.rdropWhile isWs u1 with hv
  set w : List Char := List.rdropWhile isTrail v with hw
  have hclean : clean_title t = w := hrw t
  have hpre1 := List.rdropWhile_prefix isTrail v
  have hpre2 := List.rdropWhile_prefix isWs u1
  have hsub : w ⊆ u :=
    fun c hc =>
      (List.dropWhile_suffix isWs).sublist.subset
        (hpre2.sublist.subset (hpre1.sublist.subset hc))
  have hsp_w : ∀ c ∈ w, isWs c = true → c = ' ' :=
    fun c hc => allWsSpace_collapseWsAux false t c (hsub hc)
  have hch_u1 : List.Chain' WsSep u1 :=
    (chain'_collapseWsAux false t).suffix (List.dropWhile_suffix isWs)
  have hch_v : List.Chain' WsSep v := List.Chain'.prefix hch_u1 hpre2
  have hch_w : List.Chain' WsSep w := List.Chain'.prefix hch_v hpre1
  have hC : collapseWsAux false w = w := collapseWsAux_eq_self hsp_w hch_w
  have hdrop : w.dropWhile isWs = w := by
    cases hwc : w with
    | nil => rfl
    | cons c w2 =>
      obtain ⟨t1, ht1⟩ := List.rdropWhile_prefix isTrail v
      rw [← hw] at ht1
      have hvhead : v.head? = some c := by rw [← ht1, hwc]; rfl
      obtain ⟨t2, ht2⟩ := List.rdropWhile_prefix isWs u1
      rw [← hv] at ht2
      have hu1head : u1.head? = some c := by
        cases hv2 : v with
        | nil => rw [hv2] at hvhead; simp at hvhead
        | cons d v2 =>
          rw [hv2, List.head?_cons, Option.some.injEq] at hvhead
          rw [← ht2, hv2, hvhead]
          rfl
      have hcws : isWs c = false := by
        have h3 := List.head?_dropWhile_not isWs u
        rw [← hu1] at h3
        rw [hu1head] at h3
        exact h3
      rw [List.dropWhile_cons_of_neg (by simp [hcws])]
  have hlast : List.rdropWhile isWs w = w := by
    rw [List.rdropWhile_eq_self_iff]
    intro hl
    have hne : List.rdropWhile isTrail v ≠ [] := by rw [← hw]; exact hl
    have htr : ¬ isTrail ((List.rdropWhile isTrail v).getLast hne) = true :=
      List.rdropWhile_last_not isTrail v hne
    intro hws
    apply htr
    apply isTrail_of_isWs
    convert hws using 2
  have hfinal : List.rdropWhile isTrail w = w := by
    rw [hw]
    exact List.rdropWhile_idempotent isTrail v
  rw [hclean, hrw w, hC, hdrop, hlast, hfinal]

/-- Folding an inner fold over each group equals one fold over the flattened
list. -/
theorem foldl_foldl_flatMap {X α β : Type} (g : β → α → β) (F : X → List α) :
    ∀ (L : List X) (acc : β),
      L.foldl (fun b p => (F p).foldl g b) acc = (L.flatMap F).foldl g acc := by
  intro L
  induction L with
  | nil => intro acc; simp
  | cons p tail ih =>
    intro acc
    rw [List.foldl_cons, ih, List.flatMap_cons, List.foldl_append]

/-- Folding first-occurrence insertion from an accumulator appends the
first-occurrence deduplication of the unseen elements. -/
theorem foldl_insertIfNew_eq (l : List (String × List Char)) :
    ∀ acc, l.foldl insertIfNew acc =
      acc ++ dedupFirst (l.filter (fun x => !decide (x ∈ acc))) := by
  induction l with
  | nil => intro acc; simp [dedupFirst]
  | cons x xs ih =>
    intro acc
    by_cases hx : x ∈ acc
    · rw [List.foldl_cons]
      have hins : insertIfNew acc x = acc := by simp [insertIfNew, hx]
      rw [hins, ih acc, List.filter_cons, if_neg (by simp [hx])]
    · rw [List.foldl_cons]
      have hins : insertIfNew acc x = acc ++ [x] := by simp [insertIfNew, hx]
      rw [hins, ih (acc ++ [x]), List.filter_cons, if_pos (by simp [hx])]
      have hfil :
          xs.filter (fun y => !decide (y ∈ acc ++ [x])) =
            (xs.filter (fun y => !decide (y ∈ acc))).filter (fun y => !decide (y = x)) := by
        rw [List.filter_filter]
        refine List.filter_congr ?_
        intro y _
        by_cases h1 : y = x
        · simp [h1]
        · by_cases h2 : y ∈ acc <;> simp [h1, h2]
      rw [List.append_assoc]
      congr 1
      rw [hfil]
      simp [dedupFirst]

/-- Elements of the first-occurrence deduplication come from the input. -/
theorem mem_dedupFirst {a : String × List Char} :
    ∀ {l : List (String × List Char)}, a ∈ dedupFirst l → a ∈ l := by
  intro l
  induction l using dedupFirst.induct with
  | case1 => intro h; simp [dedupFirst] at h
  | case2 x xs ih =>
    intro h
    rw [dedupFirst] at h
    rcases List.mem_cons.mp h with rfl | h2
    · exact List.mem_cons_self a _
    · exact List.mem_cons_of_mem x (List.mem_filter.mp (ih h2)).1

/-- First-occurrence deduplication never repeats an element. -/
theorem dedupFirst_nodup : ∀ l : List (String × List Char), (dedupFirst l).Nodup := by
  intro l
  induction l using dedupFirst.induct with
  | case1 => simp [dedupFirst]
  | case2 x xs ih =>
    rw [dedupFirst, List.nodup_cons]
    refine ⟨fun hmem => ?_, ih⟩
    have := (List.mem_filter.mp (mem_dedupFirst hmem)).2
    simp at this

/-- The function `find_accessions` equals first-occurrence deduplication of the full
candidate stream in registry order, raw surface first. -/
theorem find_accessions_eq (text : List Char) :
    find_accessions text = dedupFirst (allRawHits text) := by
  have hstep : find_accessions text = (allRawHits text).foldl insertIfNew [] := by
    unfold find_accessions allRawHits
    rw [← foldl_foldl_flatMap insertIfNew]
    have hfun : ∀ (p : String × (List Char → Option (List Char)))
        (found : List (String × List Char)) (gs : List (List Char)),
        gs.foldl (fun fd g => insertIfNew fd (p.1, g.map Char.toUpper)) found =
          ((gs.map (fun g => (p.1, g.map Char.toUpper))).foldl insertIfNew found) := by
      intro p found gs
      rw [List.foldl_map]
    simp only [hfun]
  rw [hstep, foldl_insertIfNew_eq]
  have : (allRawHits text).filter (fun x => !decide (x ∈ ([] : List (String × List Char)))) =
      allRawHits text := by
    refine List.filter_congr ?_ |>.trans (List.filter_true _)
    intro y _
    simp
  rw [this, List.nil_append]

/-- C5, claim theorem: the matcher's hits appear in registry order, within one
rule in raw-surface order followed by the matches found only in the
dehyphenated surface, and the first occurrence of a pair defines its output
position. -/
theorem claim_C5_find_accessions_order (text : List Char) :
    find_accessions text = dedupFirst (allRawHits text) :=
  find_accessions_eq text

/-- C4, claim theorem: the matcher reports each (label, upper-cased
identifier) pair at most once, and the example text with `GSE1234` in two
casings three times yields exactly the single hit (GEO Series, GSE1234). -/
theorem claim_C4_find_accessions_nodup :
    (∀ text : List Char, (find_accessions text).Nodup) ∧
      find_accessions gseText = [("GEO Series", ("GSE1234").toList)] := by
  constructor
  · intro text
    rw [find_accessions_eq]
    exact dedupFirst_nodup _
  · decide

/-- The dehyphenation scanner maps the empty text to itself at any fuel. -/
theorem dehyphenAux_nil : ∀ fuel : Nat, dehyphenAux fuel [] = [] := by
  intro fuel
  cases fuel <;> rfl

/-- The dehyphenation scanner is fuel-irrelevant once the fuel covers the
text length. -/
theorem dehyphenAux_fuel :
    ∀ (f1 : Nat) (l : List Char) (f2 : Nat),
      l.length ≤ f1 → l.length ≤ f2 → dehyphenAux f1 l = dehyphenAux f2 l := by
  intro f1
  induction f1 with
  | zero =>
    intro l f2 h1 _
    have hnil : l = [] := List.eq_nil_of_length_eq_zero (Nat.le_zero.mp h1)
    subst hnil
    rw [dehyphenAux_nil, dehyphenAux_nil]
  | succ f1 ih =>
    intro l f2 h1 h2
    cases f2 with
    | zero =>
      have hnil : l = [] := List.eq_nil_of_length_eq_zero (Nat.le_zero.mp h2)
      subst hnil
      rw [dehyphenAux_nil, dehyphenAux_nil]
    | succ f2 =>
      simp only [dehyphenAux]
      split
      · rename_i a b rest2
        simp only [List.length_cons] at h1 h2
        split
        · rw [ih rest2 f2 (by omega) (by omega)]
        · rw [ih ('-' :: '\n' :: b :: rest2) f2 (by simp; omega) (by simp; omega)]
      · rename_i a rest h
        simp only [List.length_cons] at h1 h2
        rw [ih rest f2 (by omega) (by omega)]
      · rfl

/-- One scan step of the dehyphenation scanner at the four-character
pattern. -/
theorem dehyphenAux_step (fuel : Nat) (a b : Char) (rest : List Char) :
    dehyphenAux (fuel + 1) (a :: '-' :: '\n' :: b :: rest) =
      if (isWordChar a && isWordChar b) = true then a :: b :: dehyphenAux fuel rest
      else a :: dehyphenAux fuel ('-' :: '\n' :: b :: rest) := rfl

/-- A tail of a text without hyphen-linebreak pairs has none either. -/
theorem noHyphenBreak_tail {c : Char} {rest : List Char}
    (h : noHyphenBreak (c :: rest) = true) : noHyphenBreak rest = true := by
  cases rest with
  | nil => rfl
  | cons d r =>
    have := (Bool.and_eq_true _ _).mp h
    exact this.2

/-- At any fuel, the scanner does not alter a text in which no hyphen is
immediately followed by a line break. -/
theorem dehyphenAux_noHyphenBreak :
    ∀ (fuel : Nat) (l : List Char), noHyphenBreak l = true → dehyphenAux fuel l = l := by
  intro fuel
  induction fuel with
  | zero => intro l _; rfl
  | succ fuel ih =>
    intro l h
    simp only [dehyphenAux]
    split
    · rename_i a b rest2
      exfalso
      have h2 : noHyphenBreak ('-' :: '\n' :: b :: rest2) = true := noHyphenBreak_tail h
      simp [noHyphenBreak] at h2
    · rename_i a rest hne
      rw [ih rest (noHyphenBreak_tail h)]
    · rfl

/-- C6, claim theorem: the dehyphenation collapses a word-char, hyphen, line
break, word-char occurrence into the two word characters, recovers the
line-wrapped `PRJEB12-\n345` as the matched `PRJEB12345`, and never alters a
hyphen not immediately followed by a line break. -/
theorem claim_C6_dehyphenation :
    (∀ (a b : Char) (rest : List Char), isWordChar a = true → isWordChar b = true →
        dehyphen (a :: '-' :: '\n' :: b :: rest) = a :: b :: dehyphen rest) ∧
    dehyphen wrapText = ("PRJEB12345").toList ∧
    find_accessions wrapText = [("ENA Project", ("PRJEB12345").toList)] ∧
    (∀ text : List Char, noHyphenBreak text = true → dehyphen text = text) := by
  refine ⟨?_, by decide, by decide, ?_⟩
  · intro a b rest ha hb
    show dehyphenAux (a :: '-' :: '\n' :: b :: rest).length (a :: '-' :: '\n' :: b :: rest) =
      a :: b :: dehyphenAux rest.length rest
    have hlen : (a :: '-' :: '\n' :: b :: rest).length = rest.length + 3 + 1 := by
      simp only [List.length_cons]
    rw [hlen, dehyphenAux_step, if_pos (by simp [ha, hb]),
      dehyphenAux_fuel (rest.length + 3) rest rest.length (by omega) (by omega)]
  · intro text h
    exact dehyphenAux_noHyphenBreak text.length text h

/-- C6, witness: the theorem applied at the example inputs, discharging each
hypothesis on concrete data. -/
theorem claim_C6_dehyphenation_witness :
    dehyphen ('a' :: '-' :: '\n' :: 'b' :: []) = 'a' :: 'b' :: dehyphen [] ∧
      dehyphen ("self-made text").toList = ("self-made text").toList :=
  ⟨claim_C6_dehyphenation.1 'a' 'b' [] (by decide) (by decide),
   claim_C6_dehyphenation.2.2.2 (("self-made text").toList) (by decide)⟩

/-- The qualifying pairs of a span list, cons case. -/
theorem qualifiedOf_cons (s : Span) (rest : List Span) :
    qualifiedOf (s :: rest) =
      if qualifies (stripEnds s.text) = true
      then (s.size, stripEnds s.text) :: qualifiedOf rest
      else qualifiedOf rest := by
  simp [qualifiedOf, List.filter_cons]

/-- The best-span loop computes the first strict maximum of the qualifying
pairs, compared against the running best. -/
theorem bestLoop_eq (spans : List Span) :
    ∀ b : Rat × List Char,
      bestLoop b spans =
        match firstMax (qualifiedOf spans) with
        | none => b
        | some y => if b.1 < y.1 then y else b := by
  induction spans with
  | nil =>
    intro b
    simp [bestLoop, qualifiedOf, firstMax]
  | cons s rest ih =>
    intro b
    rw [qualifiedOf_cons]
    by_cases hq : qualifies (stripEnds s.text) = true
    · rw [if_pos hq]
      show (if (qualifies (stripEnds s.text) && decide (b.1 < s.size)) = true
        then bestLoop (s.size, stripEnds s.text) rest else bestLoop b rest) = _
      rw [hq, Bool.true_and]
      cases hf : firstMax (qualifiedOf rest) with
      | none =>
        by_cases hb : b.1 < s.size
        · rw [if_pos (by simp [hb]), ih, hf]
          simp [firstMax, hf, hb]
        · rw [if_neg (by simp [hb]), ih, hf]
          simp [firstMax, hf, hb]
      | some z =>
        by_cases hb : b.1 < s.size
        · rw [if_pos (by simp [hb]), ih, hf]
          simp only [firstMax, hf]
          by_cases hz : s.size < z.1
          · rw [if_pos hz, if_pos hz]
            simp [show b.1 < z.1 by linarith]
          · rw [if_neg hz, if_neg hz]
            simp [hb]
        · rw [if_neg (by simp [hb]), ih, hf]
          simp only [firstMax, hf]
          by_cases hz : s.size < z.1
          · rw [if_pos hz]
          · rw [if_neg hz]
            have hbz : ¬ b.1 < z.1 := by
              simp only [not_lt] at hb hz ⊢
              exact hz.trans hb
            simp [hb, hbz]
    · rw [if_neg hq]
      show (if (qualifies (stripEnds s.text) && decide (b.1 < s.size)) = true
        then bestLoop (s.size, stripEnds s.text) rest else bestLoop b rest) = _
      rw [if_neg (by simp [hq]), ih]

/-- The first strict maximum is an element of the list. -/
theorem firstMax_mem :
    ∀ {l : List (Rat × List Char)} {y : Rat × List Char}, firstMax l = some y → y ∈ l := by
  intro l
  induction l with
  | nil => intro y h; simp [firstMax] at h
  | cons x xs ih =>
    intro y h
    simp only [firstMax] at h
    cases hf : firstMax xs with
    | none =>
      rw [hf] at h
      simp only [Option.some.injEq] at h
      subst h
      exact List.mem_cons_self x xs
    | some z =>
      rw [hf] at h
      change (if x.1 < z.1 then some z else some x) = some y at h
      by_cases hz : x.1 < z.1
      · rw [if_pos hz, Option.some.injEq] at h
        subst h
        exact List.mem_cons_of_mem x (ih hf)
      · rw [if_neg hz, Option.some.injEq] at h
        subst h
        exact List.mem_cons_self x xs

/-- The size component of every qualifying pair is the size of one of the
spans. -/
theorem qualifiedOf_size_mem {spans : List Span} {y : Rat × List Char}
    (h : y ∈ qualifiedOf spans) : ∃ s ∈ spans, y.1 = s.size := by
  have h1 := (List.mem_filter.mp h).1
  obtain ⟨s, hs, hy⟩ := List.mem_map.mp h1
  exact ⟨s, hs, by rw [← hy]⟩

/-- C7, claim theorem: among first-page spans a candidate qualifies per the
trimmed-length and upper-case filter, the strictly largest qualifying span
wins with ties kept by traversal order, and on the example spans of sizes
10, 24 (all upper-case), 12 the size-12 text is returned as the title. -/
theorem claim_C7_largest_span :
    (∀ spans : List Span, (∀ s ∈ spans, (0 : Rat) ≤ s.size) →
        bestLoop (-1, []) spans =
          match firstMax (qualifiedOf spans) with
          | none => ((-1 : Rat), ([] : List Char))
          | some y => y) ∧
      guess_title_from_first_page exDoc (("paper1").toList) =
        ("A Study of Regulatory Elements").toList := by
  constructor
  · intro spans hpos
    rw [bestLoop_eq]
    cases hf : firstMax (qualifiedOf spans) with
    | none => rfl
    | some y =>
      obtain ⟨s, hs, hy⟩ := qualifiedOf_size_mem (firstMax_mem hf)
      have : (-1 : Rat) < y.1 := by
        have := hpos s hs
        rw [hy]
        linarith
      simp [this]
  · decide

/-- C7, witness: the selection characterization applied to the example spans,
with the size hypothesis discharged on concrete data. -/
theorem claim_C7_largest_span_witness :
    bestLoop (-1, []) exSpans =
      (match firstMax (qualifiedOf exSpans) with
        | none => ((-1 : Rat), ([] : List Char))
        | some y => y) ∧
      (∀ s ∈ exSpans, (0 : Rat) ≤ s.size) :=
  ⟨claim_C7_largest_span.1 exSpans (by decide), by decide⟩

/-- C10, claim theorem: text with no cased letters is never `isupper`, hence a
digits-only trimmed span longer than five characters qualifies, and on the
example document the strictly largest digits-only span is selected as the
title. -/
theorem claim_C10_uncased_span :
    (∀ txt : List Char, (∀ c ∈ txt, c.isAlpha = false) → pyIsUpper txt = false) ∧
      (∀ txt : List Char, (∀ c ∈ txt, c.isAlpha = false) → 5 < txt.length →
        qualifies txt = true) ∧
      guess_title_from_first_page digitDoc (("paper2").toList) = ("1234567").toList := by
  refine ⟨?_, ?_, by decide⟩
  · intro txt h
    simp only [pyIsUpper, Bool.and_eq_false_iff, List.any_eq_false]
    left
    intro c hc
    simp [h c hc]
  · intro txt h hlen
    have hup : pyIsUpper txt = false := by
      simp only [pyIsUpper, Bool.and_eq_false_iff, List.any_eq_false]
      left
      intro c hc
      simp [h c hc]
    have hne : txt.isEmpty = false := by
      cases txt with
      | nil => simp at hlen
      | cons c r => rfl
    simp [qualifies, hne, hlen, hup]

/-- C10, witness: the qualification facts applied to the digits-only example
text. -/
theorem claim_C10_uncased_span_witness :
    pyIsUpper (("1234567").toList) = false ∧ qualifies (("1234567").toList) = true :=
  ⟨claim_C10_uncased_span.1 (("1234567").toList) (by decide),
   claim_C10_uncased_span.2.1 (("1234567").toList) (by decide) (by decide)⟩

/-- C2, counterexample: a metadata title of five dashes passes the tier check
yet the returned cleaned title is the empty string, refuting that the engine
always returns a non-empty string. -/
theorem claim_C2_counterexample :
    guess_title_from_first_page dashDoc (("doc").toList) = [] := by
  decide

/-- C2, amended claim theorem: the engine returns the cleaned candidate of the
first tier whose raw (pre-cleaning) candidate passes that tier's test, and
the filename stem when no tier qualifies; cleaning may yield the empty
string. -/
theorem claim_C2_title_cascade_amended (d : PdfDoc) (stem : List Char) :
    guess_title_from_first_page d stem =
      match selectedRaw d with
      | some c => clean_title c
      | none => stem := by
  unfold guess_title_from_first_page selectedRaw
  by_cases hm : metaCond d.metaTitle = true
  · rw [if_pos hm, if_pos hm]
  · rw [if_neg hm, if_neg hm]
    cases d.pages with
    | nil => rfl
    | cons p rest =>
      by_cases hb : (!(bestLoop (-1, []) (spansOf p.blocks)).2.isEmpty) = true
      · simp only [hb, if_pos]
      · simp only [hb, Bool.false_eq_true, if_false]

/-- C8, claim theorem: the metadata tier fires exactly when the metadata title
is present, non-blank after trimming, and longer than three characters; when
it fires the cleaned metadata title is returned regardless of page content,
and when it does not fire the result is independent of the metadata title. -/
theorem claim_C8_metadata_tier (d : PdfDoc) (stem : List Char) :
    (metaCond d.metaTitle = true →
      guess_title_from_first_page d stem = clean_title d.metaTitle) ∧
    (metaCond d.metaTitle = false →
      guess_title_from_first_page d stem =
        guess_title_from_first_page ⟨[], d.pages⟩ stem) := by
  constructor
  · intro hm
    unfold guess_title_from_first_page
    rw [if_pos hm]
  · intro hm
    unfold guess_title_from_first_page
    rw [if_neg (by rw [hm]; exact Bool.false_ne_true)]
    have hnil : metaCond ([] : List Char) = false := rfl
    rw [if_neg (by rw [hnil]; exact Bool.false_ne_true)]

/-- C8, witness: the theorem applied at the dash-metadata document (tier
fires) and at the metadata-free example document (tier does not fire). -/
theorem claim_C8_metadata_tier_witness :
    guess_title_from_first_page dashDoc (("doc").toList) = clean_title dashDoc.metaTitle ∧
      guess_title_from_first_page exDoc (("p").toList) =
        guess_title_from_first_page ⟨[], exDoc.pages⟩ (("p").toList) :=
  ⟨(claim_C8_metadata_tier dashDoc (("doc").toList)).1 (by decide),
   (claim_C8_metadata_tier exDoc (("p").toList)).2 (by decide)⟩

/-- One loop step appends exactly the per-document contributions to the
accumulated rows, records and hit count. -/
theorem processOne_eq (wj md : Bool) (st : BatchState) (doc : DocInput) :
    processOne wj md st doc =
      ⟨st.rows ++ docRowsOf md doc,
       st.jsonl_records ++ docRecsOf wj md doc,
       st.total_matches + docTotalOf doc⟩ := by
  unfold processOne docRowsOf docRecsOf docTotalOf appendErr
  cases doc.titleRes with
  | error e => cases wj <;> simp
  | ok d =>
    cases doc.textRes with
    | error e => cases wj <;> simp
    | ok text =>
      cases md with
      | false => cases wj <;> simp
      | true =>
        cases doc.moveRes with
        | ok u => cases wj <;> simp
        | error e => cases wj <;> simp

/-- The batch fold from any state appends the concatenated per-document
contributions. -/
theorem foldl_processOne_eq (wj md : Bool) :
    ∀ (docs : List DocInput) (st : BatchState),
      docs.foldl (processOne wj md) st =
        ⟨st.rows ++ docs.flatMap (docRowsOf md),
         st.jsonl_records ++ docs.flatMap (docRecsOf wj md),
         st.total_matches + (docs.map docTotalOf).sum⟩ := by
  intro docs
  induction docs with
  | nil => intro st; simp
  | cons doc rest ih =>
    intro st
    rw [List.foldl_cons, processOne_eq, ih]
    simp [Nat.add_assoc]

/-- C3, claim theorem: per-document failures are isolated — the batch output
is the concatenation of independent per-document contributions, a document
whose extraction raises contributes exactly one `ERROR:`-titled row and one
record with empty hits and the failure detail, and the three-document example
with a failing middle document yields exactly the three expected records. -/
theorem claim_C3_failure_isolation :
    (∀ (wj md : Bool) (docs : List DocInput),
        (runBatch wj md docs).rows = docs.flatMap (docRowsOf md) ∧
        (runBatch wj md docs).jsonl_records = docs.flatMap (docRecsOf wj md)) ∧
    (∀ (md : Bool) (doc : DocInput) (e : ExcInfo), doc.titleRes = .error e →
        docRowsOf md doc = [errRowOf doc.name e] ∧
        docRecsOf true md doc = [errRecOf doc.name e]) ∧
    (∀ (md : Bool) (doc : DocInput) (d : PdfDoc) (e : ExcInfo),
        doc.titleRes = .ok d → doc.textRes = .error e →
        docRowsOf md doc = [errRowOf doc.name e] ∧
        docRecsOf true md doc = [errRecOf doc.name e]) ∧
    (runBatch true false [docA, docB, docC]).jsonl_records =
      [⟨("a.pdf").toList, ("Paper One Title").toList,
         [("GEO Series", ("GSE1234").toList)], none⟩,
       ⟨("b.pdf").toList, ("ERROR: FileDataError").toList, [],
         some (("cannot open broken.pdf").toList)⟩,
       ⟨("c.pdf").toList, ("Paper Three Title").toList,
         [("ENA Project", ("PRJEB12345").toList)], none⟩] := by
  refine ⟨?_, ?_, ?_, by decide⟩
  · intro wj md docs
    unfold runBatch
    rw [foldl_processOne_eq]
    exact ⟨rfl, rfl⟩
  · intro md doc e h
    unfold docRowsOf docRecsOf
    rw [h]
    exact ⟨rfl, rfl⟩
  · intro md doc d e h1 h2
    unfold docRowsOf docRecsOf
    rw [h1, h2]
    exact ⟨rfl, rfl⟩

/-- C3, witness: the error-contribution characterizations applied to the
failing example document and to a document failing at text extraction. -/
theorem claim_C3_failure_isolation_witness :
    (docRowsOf false docB =
        [errRowOf docB.name ⟨("FileDataError").toList, ("cannot open broken.pdf").toList⟩] ∧
      docRecsOf true false docB =
        [errRecOf docB.name ⟨("FileDataError").toList, ("cannot open broken.pdf").toList⟩]) ∧
    (docRowsOf false
          ⟨("t.pdf").toList, ("t").toList, .ok ⟨[], []⟩,
            .error ⟨("RuntimeError").toList, ("boom").toList⟩, .ok ()⟩ =
        [errRowOf (("t.pdf").toList) ⟨("RuntimeError").toList, ("boom").toList⟩]) :=
  ⟨claim_C3_failure_isolation.2.1 false docB
      ⟨("FileDataError").toList, ("cannot open broken.pdf").toList⟩ (by rfl),
   (claim_C3_failure_isolation.2.2.1 false
      ⟨("t.pdf").toList, ("t").toList, .ok ⟨[], []⟩,
        .error ⟨("RuntimeError").toList, ("boom").toList⟩, .ok ()⟩
      ⟨[], []⟩ ⟨("RuntimeError").toList, ("boom").toList⟩ (by rfl) (by rfl)).1⟩

/-- C1, claim-deciding theorem: a document that processes successfully but
whose relocation fails contributes two record-oriented records (the success
record and an additional error record) and two tabular rows, while the same
document with a successful relocation contributes exactly one of each. -/
theorem claim_C1_move_failure_duplicate_record :
    (runBatch true true [moveFailDoc]).jsonl_records =
      [⟨("m.pdf").toList, ("Moved Paper Title").toList, [], none⟩,
       ⟨("m.pdf").toList, ("ERROR: OSError").toList, [], some (("disk full").toList)⟩] ∧
    (runBatch true true [moveFailDoc]).rows.length = 2 ∧
    (runBatch true true [moveOkDoc]).jsonl_records =
      [⟨("m.pdf").toList, ("Moved Paper Title").toList, [], none⟩] ∧
    (runBatch true true [moveOkDoc]).rows.length = 1 := by
  refine ⟨by decide, by decide, by decide, by decide⟩

end Scraper
